import Mathlib

/-!
Shallow embedding of the book-management REST API implemented in the
Express server file of the repository (in-memory store, validation chain,
CRUD + search routes).

Modelling conventions:
* JavaScript strings are modelled as `List Char` (`JStr`); `trim`,
  `toLowerCase`, `includes` and `length` are modelled on character lists
  (JS `length` counts UTF-16 units; the whitespace class of JS `trim` is
  approximated by `Char.isWhitespace`).
* Timestamps (`new Date().toISOString()`) are modelled as a `Nat` clock
  value passed to each request handler; ISO-8601 strings compare like the
  instants they denote.
* `publicationYear` arrives as a number in the JSON body; it is modelled
  as `Int` (the `isInt` integrality check is type-level), and the
  handler's `parseInt(publicationYear)` is the identity on it.
* Each route handler is a pure function from the store (plus the request
  data and the clock) to an `Outcome` (the response envelope: status code
  and payload) and the new store.
-/

namespace BookApi

abbrev JStr := List Char

/-- JS whitespace for `trim` (approximated by `Char.isWhitespace`). -/
def wsJ (c : Char) : Bool := c.isWhitespace

/-- Drop leading whitespace (front half of JS `String.prototype.trim`). -/
def trimL (s : JStr) : JStr := s.dropWhile wsJ

/-- Drop trailing whitespace (back half of JS `String.prototype.trim`). -/
def trimR (s : JStr) : JStr := (s.reverse.dropWhile wsJ).reverse

/-- JS `String.prototype.trim`. -/
def trimJ (s : JStr) : JStr := trimR (trimL s)

/-- JS `String.prototype.toLowerCase` (ASCII-faithful). -/
def toLowerJ (s : JStr) : JStr := s.map Char.toLower

/-- `startsWithJ s q` : does `s` start with `q`? -/
def startsWithJ : JStr → JStr → Bool
  | _, [] => true
  | [], _ :: _ => false
  | c :: s, d :: q => d = c && startsWithJ s q

/-- JS `String.prototype.includes`: `q` occurs as a contiguous substring of `s`. -/
def includesJ : JStr → JStr → Bool
  | [], q => q.isEmpty
  | c :: s, q => startsWithJ (c :: s) q || includesJ s q

/-- Value of a digit character in the given radix (10 or 16), as JS `parseInt` reads digits. -/
def digitValJ (radix : Nat) (c : Char) : Option Nat :=
  if '0' ≤ c ∧ c ≤ '9' ∧ c.toNat - '0'.toNat < radix then some (c.toNat - '0'.toNat)
  else if radix = 16 ∧ 'a' ≤ c ∧ c ≤ 'f' then some (c.toNat - 'a'.toNat + 10)
  else if radix = 16 ∧ 'A' ≤ c ∧ c ≤ 'F' then some (c.toNat - 'A'.toNat + 10)
  else none

/-- Longest digit prefix in the radix, `none` when it is empty (the NaN case). -/
def parseDigitsJ (radix : Nat) (s : JStr) : Option Nat :=
  let ds := s.takeWhile fun c => (digitValJ radix c).isSome
  if ds.isEmpty then none
  else some (ds.foldl (fun acc c => acc * radix + ((digitValJ radix c).getD 0)) 0)

/-- Unsigned part of ECMAScript `parseInt` with no radix argument: an
`0x`/`0X` prefix selects base 16, otherwise base 10. -/
def parseUnsignedJ : JStr → Option Nat
  | '0' :: 'x' :: rest => parseDigitsJ 16 rest
  | '0' :: 'X' :: rest => parseDigitsJ 16 rest
  | s => parseDigitsJ 10 s

/-- ECMAScript `parseInt(string)`; `none` models `NaN`. -/
def jsParseInt (s : JStr) : Option Int :=
  match trimJ s with
  | '-' :: rest => (parseUnsignedJ rest).map fun n => -(n : Int)
  | '+' :: rest => (parseUnsignedJ rest).map fun n => (n : Int)
  | rest => (parseUnsignedJ rest).map fun n => (n : Int)

/-- One stored book record. -/
structure Book where
  id : Nat
  title : JStr
  author : JStr
  genre : JStr
  publicationYear : Int
  description : JStr
  createdAt : Nat
  updatedAt : Nat
deriving Repr, DecidableEq

/-- The process-wide mutable state: the `books` array and the `nextId` counter. -/
structure Store where
  books : List Book
  nextId : Nat
deriving Repr, DecidableEq

/-- A create/update request body. -/
structure Payload where
  title : JStr
  author : JStr
  genre : JStr
  publicationYear : Int
  description : JStr
deriving Repr, DecidableEq

/-- One entry of `errors.array()`: the offending field and its message. -/
structure FieldError where
  field : String
  message : String
deriving Repr, DecidableEq

/-- The fixed genre enumeration of the `isIn` validator. -/
def genresJ : List JStr :=
  ["Fiction".toList, "Non-Fiction".toList, "Mystery".toList, "Romance".toList,
   "Science Fiction".toList, "Fantasy".toList, "Biography".toList, "History".toList,
   "Dystopian Fiction".toList, "Other".toList]

/-- The `.trim()` sanitizers of the validation chains: they rewrite the
request body before the handler sees it (`publicationYear` has no trim). -/
def sanitize (p : Payload) : Payload :=
  { p with title := trimJ p.title, author := trimJ p.author,
           genre := trimJ p.genre, description := trimJ p.description }

/-- The `bookValidation` chain on a sanitized payload: every validator of
every chain runs (no bail), each failure contributing one
`{field, message}` entry, in chain order.  `cy` is `new Date().getFullYear()`. -/
def validateBook (cy : Int) (p : Payload) : List FieldError :=
  (if p.title = [] then [⟨"title", "Title is required"⟩] else []) ++
  (if 1 ≤ p.title.length ∧ p.title.length ≤ 200 then []
   else [⟨"title", "Title must be between 1 and 200 characters"⟩]) ++
  (if p.author = [] then [⟨"author", "Author is required"⟩] else []) ++
  (if 1 ≤ p.author.length ∧ p.author.length ≤ 100 then []
   else [⟨"author", "Author must be between 1 and 100 characters"⟩]) ++
  (if p.genre = [] then [⟨"genre", "Genre is required"⟩] else []) ++
  (if p.genre ∈ genresJ then [] else [⟨"genre", "Invalid genre"⟩]) ++
  (if 1000 ≤ p.publicationYear ∧ p.publicationYear ≤ cy then []
   else [⟨"publicationYear", "Publication year must be between 1000 and " ++ toString cy⟩]) ++
  (if p.description = [] then [⟨"description", "Description is required"⟩] else []) ++
  (if 1 ≤ p.description.length ∧ p.description.length ≤ 1000 then []
   else [⟨"description", "Description must be between 1 and 1000 characters"⟩])

/-- `book.id === parseInt(idStr)`: comparison of a record id with a parsed
path id (`NaN` compares unequal to everything). -/
def idEq (b : Book) (pid : Option Int) : Bool :=
  match pid with
  | some k => (b.id : Int) = k
  | none => false

/-- JS `Array.prototype.findIndex` (`none` models `-1`). -/
def findIndexJ (p : Book → Bool) : List Book → Option Nat
  | [] => none
  | b :: rest => if p b then some 0 else (findIndexJ p rest).map (· + 1)

/-- The case-insensitive `(title, author)` identity used by the duplicate checks. -/
def keyOf (b : Book) : JStr × JStr := (toLowerJ b.title, toLowerJ b.author)

/-- The duplicate test of the create route:
`book.title.toLowerCase() === title.toLowerCase() && book.author.toLowerCase() === author.toLowerCase()`. -/
def dupWith (p : Payload) (b : Book) : Bool :=
  toLowerJ b.title = toLowerJ p.title && toLowerJ b.author = toLowerJ p.author

/-- Response envelope: status code plus the data payload of the route. -/
inductive Outcome where
  | okList (data : List Book) (count : Nat)
  | okBook (b : Book)
  | created (b : Book)
  | notFound
  | conflict
  | badReq (errors : List FieldError)
  | emptyQuery
deriving Repr, DecidableEq

/-- HTTP status code of an outcome. -/
def Outcome.status : Outcome → Nat
  | .okList _ _ => 200
  | .okBook _ => 200
  | .created _ => 201
  | .notFound => 404
  | .conflict => 409
  | .badReq _ => 400
  | .emptyQuery => 400

/-- The `success` flag of the envelope. -/
def Outcome.success : Outcome → Bool
  | .okList _ _ => true
  | .okBook _ => true
  | .created _ => true
  | _ => false

/-- The three seed records and the initial counter (`nextId = 4`);
`t0` is the module-load time of the `new Date()` calls. -/
def seedStore (t0 : Nat) : Store :=
  { books :=
      [ { id := 1, title := "The Great Gatsby".toList,
          author := "F. Scott Fitzgerald".toList, genre := "Fiction".toList,
          publicationYear := 1925,
          description := "A classic American novel set in the Jazz Age.".toList,
          createdAt := t0, updatedAt := t0 },
        { id := 2, title := "To Kill a Mockingbird".toList,
          author := "Harper Lee".toList, genre := "Fiction".toList,
          publicationYear := 1960,
          description := "A gripping tale of racial injustice and childhood innocence.".toList,
          createdAt := t0, updatedAt := t0 },
        { id := 3, title := "1984".toList,
          author := "George Orwell".toList, genre := "Dystopian Fiction".toList,
          publicationYear := 1949,
          description := "A dystopian social science fiction novel about totalitarian control.".toList,
          createdAt := t0, updatedAt := t0 } ],
    nextId := 4 }

/-- `GET /api/books`. -/
def listBooksR (st : Store) : Outcome :=
  .okList st.books st.books.length

/-- `GET /api/books/:id` (`findBookById` uses `Array.prototype.find` with
`book.id === parseInt(id)`). -/
def getBookR (st : Store) (idStr : JStr) : Outcome :=
  match st.books.find? (fun b => idEq b (jsParseInt idStr)) with
  | none => .notFound
  | some b => .okBook b

/-- `POST /api/books`: validation chain, duplicate `(title, author)` check,
then append the new record and bump `nextId`. -/
def createBook (st : Store) (now : Nat) (cy : Int) (raw : Payload) : Outcome × Store :=
  let p := sanitize raw
  let errs := validateBook cy p
  if errs = [] then
    match st.books.find? (dupWith p) with
    | some _ => (.conflict, st)
    | none =>
      let newBook : Book :=
        { id := st.nextId, title := trimJ p.title, author := trimJ p.author,
          genre := trimJ p.genre, publicationYear := p.publicationYear,
          description := trimJ p.description, createdAt := now, updatedAt := now }
      (.created newBook, { books := st.books ++ [newBook], nextId := st.nextId + 1 })
  else (.badReq errs, st)

/-- `PUT /api/books/:id`: validation chain (middleware, so it fires before
the 404 check), `findIndex` on the parsed id, duplicate check excluding the
record's own id, then in-place replacement of the indexed record. -/
def updateBook (st : Store) (now : Nat) (cy : Int) (idStr : JStr) (raw : Payload) :
    Outcome × Store :=
  let p := sanitize raw
  let errs := validateBook cy p
  if errs = [] then
    let pid := jsParseInt idStr
    match findIndexJ (fun b => idEq b pid) st.books with
    | none => (.notFound, st)
    | some i =>
      match st.books.find? (fun b => !idEq b pid && dupWith p b) with
      | some _ => (.conflict, st)
      | none =>
        match st.books[i]? with
        | none => (.notFound, st)
        | some old =>
          let upd : Book :=
            { old with title := trimJ p.title, author := trimJ p.author,
                       genre := trimJ p.genre, publicationYear := p.publicationYear,
                       description := trimJ p.description, updatedAt := now }
          (.okBook upd, { st with books := st.books.set i upd })
  else (.badReq errs, st)

/-- `DELETE /api/books/:id`: `findIndex` on the parsed id, then
`splice(bookIndex, 1)` returning the removed record. -/
def deleteBook (st : Store) (idStr : JStr) : Outcome × Store :=
  let pid := jsParseInt idStr
  match findIndexJ (fun b => idEq b pid) st.books with
  | none => (.notFound, st)
  | some i =>
    match st.books[i]? with
    | none => (.notFound, st)
    | some old => (.okBook old, { st with books := st.books.eraseIdx i })

/-- Per-record match of the search route (four-field case-insensitive
substring test). -/
def searchHit (q : JStr) (b : Book) : Bool :=
  includesJ (toLowerJ b.title) q || includesJ (toLowerJ b.author) q ||
  includesJ (toLowerJ b.genre) q || includesJ (toLowerJ b.description) q

/-- `GET /api/books/search/:query`:
`const query = req.params.query.toLowerCase().trim()`, 400 when empty,
else `Array.prototype.filter` over the four fields. -/
def searchBooks (st : Store) (rawQ : JStr) : Outcome :=
  let q := trimJ (toLowerJ rawQ)
  if q = [] then .emptyQuery
  else
    let results := st.books.filter (searchHit q)
    .okList results results.length

/-- One API request (mutating or not). -/
inductive Op where
  | list
  | get (idStr : JStr)
  | create (raw : Payload)
  | update (idStr : JStr) (raw : Payload)
  | delete (idStr : JStr)
  | search (rawQ : JStr)
deriving Repr, DecidableEq

/-- Dispatch of one request at clock `now` (read-only routes leave the store as is). -/
def applyOp (cy : Int) (now : Nat) (st : Store) : Op → Outcome × Store
  | .list => (listBooksR st, st)
  | .get s => (getBookR st s, st)
  | .create raw => createBook st now cy raw
  | .update s raw => updateBook st now cy s raw
  | .delete s => deleteBook st s
  | .search q => (searchBooks st q, st)

/-- Run a sequence of timestamped requests. -/
def execTrace (cy : Int) (st : Store) : List (Nat × Op) → Store
  | [] => st
  | (t, op) :: rest => execTrace cy (applyOp cy t st op).2 rest

/-- The ids handed out by successful creates along a trace, in order. -/
def assignedAlong (cy : Int) (st : Store) : List (Nat × Op) → List Nat
  | [] => []
  | (t, op) :: rest =>
    let r := applyOp cy t st op
    (match op, r.1 with
     | .create _, .created b => [b.id]
     | _, _ => []) ++ assignedAlong cy r.2 rest

/-! ### Specification-side predicates (stated from the spec's wording, to be
related to the executable route functions). -/

/-- `q` occurs as a contiguous substring of `s`. -/
def IsSubstrJ (q s : JStr) : Prop := ∃ l r, s = l ++ q ++ r

/-- A record matches a search query: the lowercased query occurs in the
lowercased title, author, genre, or description. -/
def SearchMatch (q : JStr) (b : Book) : Prop :=
  IsSubstrJ q (toLowerJ b.title) ∨ IsSubstrJ q (toLowerJ b.author) ∨
  IsSubstrJ q (toLowerJ b.genre) ∨ IsSubstrJ q (toLowerJ b.description)

/-- The field validation rules of the spec on a sanitized payload. -/
def ValidPayload (cy : Int) (p : Payload) : Prop :=
  p.title ≠ [] ∧ p.title.length ≤ 200 ∧
  p.author ≠ [] ∧ p.author.length ≤ 100 ∧
  p.genre ∈ genresJ ∧
  1000 ≤ p.publicationYear ∧ p.publicationYear ≤ cy ∧
  p.description ≠ [] ∧ p.description.length ≤ 1000

/-- The store invariants of the spec: live ids pairwise distinct,
case-insensitive `(title, author)` keys pairwise distinct, and
`createdAt ≤ updatedAt` on every record. -/
def Inv (st : Store) : Prop :=
  (st.books.map Book.id).Nodup ∧ (st.books.map keyOf).Nodup ∧
  ∀ b ∈ st.books, b.createdAt ≤ b.updatedAt

/-- Every live id is below the counter (auxiliary invariant). -/
def IdBound (st : Store) : Prop := ∀ b ∈ st.books, b.id < st.nextId

/-- All stored timestamps are at or before clock value `t`. -/
def TimesLE (st : Store) (t : Nat) : Prop :=
  ∀ b ∈ st.books, b.createdAt ≤ t ∧ b.updatedAt ≤ t

/-- The full inductive state predicate threaded along a trace. -/
def GoodState (st : Store) (t : Nat) : Prop := Inv st ∧ IdBound st ∧ TimesLE st t

/-! ### Helper lemmas on the string model -/

theorem dropWhile_idemJ (p : Char → Bool) (l : JStr) :
    List.dropWhile p (List.dropWhile p l) = List.dropWhile p l := by
  induction l with
  | nil => rfl
  | cons a l ih =>
    by_cases h : p a
    · simp [List.dropWhile_cons, h, ih]
    · simp [List.dropWhile_cons, h]

theorem dropWhile_cons_self (p : Char → Bool) (a : Char) (l : JStr)
    (h : List.dropWhile p (a :: l) = a :: l) : p a = false := by
  by_cases hp : p a
  · exfalso
    have hlen : (List.dropWhile p (a :: l)).length ≤ l.length := by
      rw [List.dropWhile_cons, if_pos hp]
      exact (List.dropWhile_sublist p).length_le
    rw [h] at hlen
    simp at hlen
  · simpa using hp

theorem trimL_idem (s : JStr) : trimL (trimL s) = trimL s :=
  dropWhile_idemJ wsJ s

theorem trimR_idem (s : JStr) : trimR (trimR s) = trimR s := by
  unfold trimR
  rw [List.reverse_reverse, dropWhile_idemJ]

/-- `trimR` only removes characters from the back: its result is a prefix. -/
theorem trimR_append (s : JStr) : s = trimR s ++ (s.reverse.takeWhile wsJ).reverse := by
  unfold trimR
  conv_lhs => rw [← List.reverse_reverse s,
    ← List.takeWhile_append_dropWhile wsJ s.reverse, List.reverse_append]

theorem trimL_trimR (s : JStr) (h : trimL s = s) : trimL (trimR s) = trimR s := by
  have hsplit := trimR_append s
  generalize (s.reverse.takeWhile wsJ).reverse = X at hsplit
  rcases htr : trimR s with _ | ⟨a, t⟩
  · rfl
  · rw [htr] at hsplit
    have h2 : trimL ((a :: t) ++ X) = (a :: t) ++ X := by rw [← hsplit]; exact h
    have ha : wsJ a = false :=
      dropWhile_cons_self wsJ a (t ++ X) (by simpa [trimL] using h2)
    show List.dropWhile wsJ (a :: t) = a :: t
    rw [List.dropWhile_cons, ha]
    simp

theorem trimJ_idem (s : JStr) : trimJ (trimJ s) = trimJ s := by
  unfold trimJ
  rw [trimL_trimR (trimL s) (trimL_idem s), trimR_idem]

theorem startsWithJ_iff (s q : JStr) : startsWithJ s q = true ↔ ∃ r, s = q ++ r := by
  induction s generalizing q with
  | nil =>
    cases q with
    | nil => simp [startsWithJ]
    | cons d q => simp [startsWithJ]
  | cons c s ih =>
    cases q with
    | nil => simp [startsWithJ]
    | cons d q =>
      simp only [startsWithJ, Bool.and_eq_true, decide_eq_true_eq, ih,
        List.cons_append, List.cons.injEq]
      constructor
      · rintro ⟨hdc, r, hr⟩
        exact ⟨r, hdc.symm, hr⟩
      · rintro ⟨r, hcd, hr⟩
        exact ⟨hcd.symm, r, hr⟩

theorem includesJ_iff (s q : JStr) : includesJ s q = true ↔ IsSubstrJ q s := by
  unfold IsSubstrJ
  induction s with
  | nil =>
    simp only [includesJ, List.isEmpty_iff]
    constructor
    · rintro rfl; exact ⟨[], [], rfl⟩
    · rintro ⟨l, r, hl⟩
      rcases List.append_eq_nil.mp hl.symm with ⟨h1, h2⟩
      exact (List.append_eq_nil.mp h1).2
  | cons c s ih =>
    simp only [includesJ, Bool.or_eq_true, startsWithJ_iff, ih]
    constructor
    · rintro (⟨r, hr⟩ | ⟨l, r, hr⟩)
      · exact ⟨[], r, by simpa using hr⟩
      · exact ⟨c :: l, r, by simp [hr]⟩
    · rintro ⟨l, r, hr⟩
      cases l with
      | nil => exact Or.inl ⟨r, by simpa using hr⟩
      | cons x l =>
        right
        rw [List.cons_append, List.cons_append] at hr
        injection hr with h1 h2
        exact ⟨l, r, h2⟩

/-! ### Helper lemmas on `findIndexJ` -/

theorem findIndexJ_eq_none (p : Book → Bool) (l : List Book) :
    findIndexJ p l = none ↔ ∀ b ∈ l, p b = false := by
  induction l with
  | nil => simp [findIndexJ]
  | cons b rest ih =>
    by_cases hb : p b
    · simp only [findIndexJ, if_pos hb]
      constructor
      · intro h; cases h
      · intro h
        exact absurd (h b (List.mem_cons_self b rest)) (by simp [hb])
    · simp only [findIndexJ, if_neg hb, Option.map_eq_none']
      rw [ih]
      constructor
      · intro h x hx
        rcases List.mem_cons.mp hx with rfl | hx
        · simpa using hb
        · exact h x hx
      · intro h x hx
        exact h x (List.mem_cons_of_mem b hx)

theorem findIndexJ_some (p : Book → Bool) (l : List Book) (i : Nat)
    (h : findIndexJ p l = some i) : ∃ b, l[i]? = some b ∧ p b = true := by
  induction l generalizing i with
  | nil => simp [findIndexJ] at h
  | cons b rest ih =>
    by_cases hb : p b
    · simp only [findIndexJ, if_pos hb, Option.some.injEq] at h
      exact ⟨b, by simp [← h], hb⟩
    · simp only [findIndexJ, if_neg hb, Option.map_eq_some'] at h
      rcases h with ⟨j, hj, rfl⟩
      rcases ih j hj with ⟨x, hx, hpx⟩
      exact ⟨x, by simpa using hx, hpx⟩

theorem findIndexJ_append_sentinel (p : Book → Bool) (l : List Book) (nb : Book)
    (hall : ∀ b ∈ l, p b = false) (hnb : p nb = true) :
    findIndexJ p (l ++ [nb]) = some l.length := by
  induction l with
  | nil => simp [findIndexJ, hnb]
  | cons b rest ih =>
    have hb : p b = false := hall b (List.mem_cons_self b rest)
    have hrest : ∀ x ∈ rest, p x = false := fun x hx => hall x (List.mem_cons_of_mem b hx)
    simp [findIndexJ, hb, ih hrest]

/-! ### Helper lemmas on `Nodup` under point updates -/

theorem nodup_map_getElem_ne {κ : Type} (f : Book → κ) (l : List Book)
    (hn : (l.map f).Nodup) (i j : Nat) (hi : i < l.length) (hj : j < l.length)
    (hij : i ≠ j) : f l[i] ≠ f l[j] := by
  intro hEq
  have hi' : i < (l.map f).length := by simpa using hi
  have hj' : j < (l.map f).length := by simpa using hj
  have : (l.map f)[i] = (l.map f)[j] := by
    rw [List.getElem_map, List.getElem_map]
    exact hEq
  exact hij ((hn.getElem_inj_iff).mp this)

theorem nodup_map_set {κ : Type} (f : Book → κ) (l : List Book) (i : Nat) (v : Book)
    (hn : (l.map f).Nodup)
    (hne : ∀ j (hj : j < l.length), j ≠ i → f l[j] ≠ f v) :
    ((l.set i v).map f).Nodup := by
  induction l generalizing i with
  | nil => simp
  | cons b t ih =>
    have hn' : (t.map f).Nodup := (List.nodup_cons.mp (by simpa using hn)).2
    have hbn : f b ∉ t.map f := (List.nodup_cons.mp (by simpa using hn)).1
    cases i with
    | zero =>
      simp only [List.set_cons_zero, List.map_cons, List.nodup_cons]
      refine ⟨?_, hn'⟩
      intro hmem
      rcases List.mem_map.mp hmem with ⟨x, hx, hfx⟩
      rcases List.mem_iff_getElem.mp hx with ⟨j, hj, rfl⟩
      have := hne (j + 1) (by simpa using Nat.succ_lt_succ hj) (Nat.succ_ne_zero j)
      simp only [List.getElem_cons_succ] at this
      exact this hfx
    | succ k =>
      simp only [List.set_cons_succ, List.map_cons, List.nodup_cons]
      constructor
      · intro hmem
        rcases List.mem_map.mp hmem with ⟨x, hx, hfx⟩
        rcases List.mem_or_eq_of_mem_set hx with hx' | rfl
        · exact hbn (List.mem_map.mpr ⟨x, hx', hfx⟩)
        · have h0 := hne 0 (by simp) (by omega)
          simp only [List.getElem_cons_zero] at h0
          exact h0 hfx.symm
      · exact ih k hn' fun j hj hjk => by
          have := hne (j + 1) (by simpa using Nat.succ_lt_succ hj) (by omega)
          simpa using this

/-! ### Inversion lemmas for the route handlers -/

theorem sanitize_fixed (raw : Payload) :
    trimJ (sanitize raw).title = (sanitize raw).title ∧
    trimJ (sanitize raw).author = (sanitize raw).author ∧
    trimJ (sanitize raw).genre = (sanitize raw).genre ∧
    trimJ (sanitize raw).description = (sanitize raw).description := by
  simp [sanitize, trimJ_idem]

theorem dupWith_true_iff (p : Payload) (b : Book) :
    dupWith p b = true ↔
      toLowerJ b.title = toLowerJ p.title ∧ toLowerJ b.author = toLowerJ p.author := by
  simp [dupWith]

theorem dupWith_false_iff (p : Payload) (b : Book) :
    dupWith p b = false ↔ keyOf b ≠ (toLowerJ p.title, toLowerJ p.author) := by
  rw [← Bool.not_eq_true, dupWith_true_iff]
  simp [keyOf, Prod.ext_iff]

/-- The three possible results of the create route. -/
theorem createBook_cases (st : Store) (now : Nat) (cy : Int) (raw : Payload) :
    (validateBook cy (sanitize raw) ≠ [] ∧
      createBook st now cy raw = (.badReq (validateBook cy (sanitize raw)), st)) ∨
    (validateBook cy (sanitize raw) = [] ∧ (∃ b ∈ st.books, dupWith (sanitize raw) b = true) ∧
      createBook st now cy raw = (.conflict, st)) ∨
    (validateBook cy (sanitize raw) = [] ∧ (∀ b ∈ st.books, dupWith (sanitize raw) b = false) ∧
      ∃ nb, nb = { id := st.nextId,
                   title := (sanitize raw).title, author := (sanitize raw).author,
                   genre := (sanitize raw).genre,
                   publicationYear := (sanitize raw).publicationYear,
                   description := (sanitize raw).description,
                   createdAt := now, updatedAt := now } ∧
        createBook st now cy raw =
          (.created nb, { books := st.books ++ [nb], nextId := st.nextId + 1 })) := by
  rcases sanitize_fixed raw with ⟨h1, h2, h3, h4⟩
  by_cases hv : validateBook cy (sanitize raw) = []
  · rcases hf : st.books.find? (dupWith (sanitize raw)) with _ | b
    · right; right
      refine ⟨hv, ?_, ?_⟩
      · intro b hb
        simpa using List.find?_eq_none.mp hf b hb
      · refine ⟨_, rfl, ?_⟩
        simp [createBook, hv, hf, h1, h2, h3, h4]
    · right; left
      refine ⟨hv, ⟨b, List.mem_of_find?_eq_some hf, List.find?_some hf⟩, ?_⟩
      simp [createBook, hv, hf]
  · left
    refine ⟨hv, ?_⟩
    simp [createBook, hv]

/-- Inverting a successful update: recover the validation, index, conflict
and replacement facts from the response. -/
theorem updateBook_ok_inv (st : Store) (now : Nat) (cy : Int) (idStr : JStr)
    (raw : Payload) (ub : Book) (st2 : Store)
    (h : updateBook st now cy idStr raw = (.okBook ub, st2)) :
    validateBook cy (sanitize raw) = [] ∧
    ∃ i old, findIndexJ (fun b => idEq b (jsParseInt idStr)) st.books = some i ∧
      st.books[i]? = some old ∧
      (∀ b ∈ st.books, idEq b (jsParseInt idStr) = true ∨ dupWith (sanitize raw) b = false) ∧
      ub = { old with title := (sanitize raw).title, author := (sanitize raw).author,
                      genre := (sanitize raw).genre,
                      publicationYear := (sanitize raw).publicationYear,
                      description := (sanitize raw).description, updatedAt := now } ∧
      st2 = { st with books := st.books.set i ub } := by
  rcases sanitize_fixed raw with ⟨h1, h2, h3, h4⟩
  by_cases hv : validateBook cy (sanitize raw) = []
  · rcases hfi : findIndexJ (fun b => idEq b (jsParseInt idStr)) st.books with _ | i
    · simp [updateBook, hv, hfi] at h
    · rcases hc : st.books.find?
          (fun b => !idEq b (jsParseInt idStr) && dupWith (sanitize raw) b) with _ | b
      · rcases hg : st.books[i]? with _ | old
        · simp [updateBook, hv, hfi, hc, hg] at h
        · refine ⟨hv, i, old, rfl, hg, ?_, ?_⟩
          · intro b hb
            have hnot := List.find?_eq_none.mp hc b hb
            have hb2 : (!idEq b (jsParseInt idStr) && dupWith (sanitize raw) b) = false :=
              Bool.eq_false_iff.mpr hnot
            rcases Bool.and_eq_false_iff.mp hb2 with hne | hdup
            · left
              simpa using hne
            · right
              exact hdup
          · have heq := h
            simp only [updateBook, hv, if_pos, hfi, hc, hg, h1, h2, h3, h4] at heq
            have hpair := Prod.mk.injEq .. ▸ heq
            obtain ⟨ho, hs⟩ := hpair
            injection ho with ho2
            rw [ho2] at hs
            exact ⟨ho2.symm, hs.symm⟩
      · simp [updateBook, hv, hfi, hc] at h
  · simp [updateBook, hv] at h

/-- An update either leaves the store untouched or reports a 200 with the
updated record. -/
theorem updateBook_fail_or (st : Store) (now : Nat) (cy : Int) (idStr : JStr)
    (raw : Payload) :
    (∃ ub, (updateBook st now cy idStr raw).1 = .okBook ub) ∨
    (updateBook st now cy idStr raw).2 = st := by
  by_cases hv : validateBook cy (sanitize raw) = []
  · rcases hfi : findIndexJ (fun b => idEq b (jsParseInt idStr)) st.books with _ | i
    · right
      simp [updateBook, hv, hfi]
    · rcases hc : st.books.find?
          (fun b => !idEq b (jsParseInt idStr) && dupWith (sanitize raw) b) with _ | b
      · rcases hg : st.books[i]? with _ | old
        · right
          simp [updateBook, hv, hfi, hc, hg]
        · left
          refine ⟨{ old with title := trimJ (sanitize raw).title,
                             author := trimJ (sanitize raw).author,
                             genre := trimJ (sanitize raw).genre,
                             publicationYear := (sanitize raw).publicationYear,
                             description := trimJ (sanitize raw).description,
                             updatedAt := now }, ?_⟩
          simp [updateBook, hv, hfi, hc, hg]
      · right
        simp [updateBook, hv, hfi, hc]
  · right
    simp [updateBook, hv]

/-- The two possible results of the delete route. -/
theorem deleteBook_cases (st : Store) (idStr : JStr) :
    ((findIndexJ (fun b => idEq b (jsParseInt idStr)) st.books = none ∨
        ∃ i, findIndexJ (fun b => idEq b (jsParseInt idStr)) st.books = some i ∧
          st.books[i]? = none) ∧
      deleteBook st idStr = (.notFound, st)) ∨
    (∃ i old, findIndexJ (fun b => idEq b (jsParseInt idStr)) st.books = some i ∧
      st.books[i]? = some old ∧
      deleteBook st idStr = (.okBook old, { st with books := st.books.eraseIdx i })) := by
  rcases hfi : findIndexJ (fun b => idEq b (jsParseInt idStr)) st.books with _ | i
  · left
    exact ⟨Or.inl rfl, by simp [deleteBook, hfi]⟩
  · rcases hg : st.books[i]? with _ | old
    · left
      exact ⟨Or.inr ⟨i, rfl, hg⟩, by simp [deleteBook, hfi, hg]⟩
    · right
      exact ⟨i, old, rfl, hg, by simp [deleteBook, hfi, hg]⟩

/-! ### Preservation of the invariants -/

theorem goodState_mono {st : Store} {t t' : Nat} (h : GoodState st t) (htt : t ≤ t') :
    GoodState st t' := by
  obtain ⟨hInv, hIdb, hTle⟩ := h
  exact ⟨hInv, hIdb, fun b hb => ⟨(hTle b hb).1.trans htt, (hTle b hb).2.trans htt⟩⟩

/-- A successful update touches index `i` of the store; facts about the
parsed id and the untouched records, given distinct ids. -/
theorem update_success_facts (st : Store) (now : Nat) (idStr : JStr)
    (raw : Payload) (ub : Book) (i : Nat) (old : Book)
    (hids : (st.books.map Book.id).Nodup)
    (hfi : findIndexJ (fun b => idEq b (jsParseInt idStr)) st.books = some i)
    (hg : st.books[i]? = some old)
    (hconf : ∀ b ∈ st.books, idEq b (jsParseInt idStr) = true ∨
      dupWith (sanitize raw) b = false)
    (hub : ub = { old with
                  title := (sanitize raw).title, author := (sanitize raw).author,
                  genre := (sanitize raw).genre,
                  publicationYear := (sanitize raw).publicationYear,
                  description := (sanitize raw).description, updatedAt := now }) :
    ∃ (hi : i < st.books.length), st.books[i] = old ∧
      ∀ j (hj : j < st.books.length), j ≠ i →
        st.books[j].id ≠ ub.id ∧ keyOf st.books[j] ≠ keyOf ub := by
  obtain ⟨hi, hold⟩ := List.getElem?_eq_some.mp hg
  obtain ⟨b0, hb0, hpb0⟩ := findIndexJ_some _ _ _ hfi
  rw [hg] at hb0
  injection hb0 with hb0
  subst hb0
  rcases hpid : jsParseInt idStr with _ | k
  · rw [hpid] at hpb0
    simp [idEq] at hpb0
  · rw [hpid] at hpb0
    have hk : (old.id : Int) = k := by simpa [idEq] using hpb0
    refine ⟨hi, hold, ?_⟩
    intro j hj hji
    have hidne : st.books[j].id ≠ old.id := by
      have h2 := nodup_map_getElem_ne Book.id st.books hids j i hj hi hji
      rw [hold] at h2
      exact h2
    have hjid : idEq st.books[j] (jsParseInt idStr) = false := by
      rw [hpid]
      simp only [idEq, decide_eq_false_iff_not]
      intro hcast
      apply hidne
      have : (st.books[j].id : Int) = (old.id : Int) := by rw [hcast, hk]
      exact_mod_cast this
    have hmem : st.books[j] ∈ st.books := List.getElem_mem hj
    rcases hconf st.books[j] hmem with htrue | hdup
    · rw [hjid] at htrue
      cases htrue
    · refine ⟨by simp [hub, hidne], ?_⟩
      have := dupWith_false_iff (sanitize raw) st.books[j] |>.mp hdup
      intro hkey
      apply this
      rw [hkey, hub]
      simp [keyOf]

theorem applyOp_idBound (cy : Int) (now : Nat) (st : Store) (op : Op)
    (h : IdBound st) : IdBound (applyOp cy now st op).2 := by
  cases op with
  | list => exact h
  | get s => exact h
  | search q => exact h
  | create raw =>
    show IdBound (createBook st now cy raw).2
    rcases createBook_cases st now cy raw with ⟨_, heq⟩ | ⟨_, _, heq⟩ |
      ⟨_, _, nb, hnb, heq⟩
    · rw [heq]; exact h
    · rw [heq]; exact h
    · rw [heq]
      intro b hb
      rcases List.mem_append.mp hb with hb' | hb'
      · exact Nat.lt_succ_of_lt (h b hb')
      · rcases List.mem_singleton.mp hb' with rfl
        rw [hnb]
        exact Nat.lt_succ_self _
  | update s raw =>
    show IdBound (updateBook st now cy s raw).2
    rcases updateBook_fail_or st now cy s raw with ⟨ub, hok⟩ | hst
    · have hfull : updateBook st now cy s raw =
          (.okBook ub, (updateBook st now cy s raw).2) := Prod.ext_iff.mpr ⟨hok, rfl⟩
      obtain ⟨hv, i, old, hfi, hg, hconf, hub, hst2⟩ := updateBook_ok_inv _ _ _ _ _ _ _ hfull
      rw [hst2]
      intro b hb
      rcases List.mem_or_eq_of_mem_set hb with hb' | rfl
      · exact h b hb'
      · obtain ⟨hi, hold⟩ := List.getElem?_eq_some.mp hg
        have : old ∈ st.books := hold ▸ List.getElem_mem hi
        simpa [hub] using h old this
    · rw [hst]; exact h
  | delete s =>
    show IdBound (deleteBook st s).2
    rcases deleteBook_cases st s with ⟨_, heq⟩ | ⟨i, old, hfi, hg, heq⟩
    · rw [heq]; exact h
    · rw [heq]
      intro b hb
      exact h b ((List.eraseIdx_sublist st.books i).subset hb)

theorem applyOp_nextId (cy : Int) (now : Nat) (st : Store) (op : Op) :
    st.nextId ≤ (applyOp cy now st op).2.nextId := by
  cases op with
  | list => exact le_refl _
  | get s => exact le_refl _
  | search q => exact le_refl _
  | create raw =>
    show st.nextId ≤ (createBook st now cy raw).2.nextId
    rcases createBook_cases st now cy raw with ⟨_, heq⟩ | ⟨_, _, heq⟩ |
      ⟨_, _, nb, hnb, heq⟩
    · rw [heq]
    · rw [heq]
    · rw [heq]; exact Nat.le_succ _
  | update s raw =>
    show st.nextId ≤ (updateBook st now cy s raw).2.nextId
    rcases updateBook_fail_or st now cy s raw with ⟨ub, hok⟩ | hst
    · have hfull : updateBook st now cy s raw =
          (.okBook ub, (updateBook st now cy s raw).2) := Prod.ext_iff.mpr ⟨hok, rfl⟩
      obtain ⟨hv, i, old, hfi, hg, hconf, hub, hst2⟩ := updateBook_ok_inv _ _ _ _ _ _ _ hfull
      rw [hst2]
    · rw [hst]
  | delete s =>
    show st.nextId ≤ (deleteBook st s).2.nextId
    rcases deleteBook_cases st s with ⟨_, heq⟩ | ⟨i, old, hfi, hg, heq⟩
    · rw [heq]
    · rw [heq]

theorem create_good (st : Store) (now : Nat) (cy : Int) (raw : Payload)
    (h : GoodState st now) : GoodState (createBook st now cy raw).2 now := by
  obtain ⟨⟨hids, hkeys, htimes⟩, hidb, htle⟩ := h
  rcases createBook_cases st now cy raw with ⟨_, heq⟩ | ⟨_, _, heq⟩ |
    ⟨_, hnodup, nb, hnb, heq⟩
  · rw [heq]; exact ⟨⟨hids, hkeys, htimes⟩, hidb, htle⟩
  · rw [heq]; exact ⟨⟨hids, hkeys, htimes⟩, hidb, htle⟩
  · rw [heq]
    refine ⟨⟨?_, ?_, ?_⟩, ?_, ?_⟩
    · rw [List.map_append, List.nodup_append]
      refine ⟨hids, by simp, ?_⟩
      intro a ha hb
      rcases List.mem_map.mp ha with ⟨x, hx, rfl⟩
      have hlt := hidb x hx
      have : x.id = nb.id := by simpa [hnb] using hb
      rw [hnb] at this
      simp at this
      omega
    · rw [List.map_append, List.nodup_append]
      refine ⟨hkeys, by simp, ?_⟩
      intro a ha hb
      rcases List.mem_map.mp ha with ⟨x, hx, rfl⟩
      have hdup := hnodup x hx
      have hkx := (dupWith_false_iff (sanitize raw) x).mp hdup
      apply hkx
      have : keyOf x = keyOf nb := by simpa [hnb] using hb
      rw [this, hnb]
      simp [keyOf]
    · intro b hb
      rcases List.mem_append.mp hb with hb' | hb'
      · exact htimes b hb'
      · rcases List.mem_singleton.mp hb' with rfl
        simp [hnb]
    · intro b hb
      rcases List.mem_append.mp hb with hb' | hb'
      · exact Nat.lt_succ_of_lt (hidb b hb')
      · rcases List.mem_singleton.mp hb' with rfl
        rw [hnb]
        exact Nat.lt_succ_self _
    · intro b hb
      rcases List.mem_append.mp hb with hb' | hb'
      · exact htle b hb'
      · rcases List.mem_singleton.mp hb' with rfl
        simp [hnb]

theorem update_good (st : Store) (now : Nat) (cy : Int) (idStr : JStr) (raw : Payload)
    (h : GoodState st now) : GoodState (updateBook st now cy idStr raw).2 now := by
  obtain ⟨⟨hids, hkeys, htimes⟩, hidb, htle⟩ := h
  rcases updateBook_fail_or st now cy idStr raw with ⟨ub, hok⟩ | hst
  · have hfull : updateBook st now cy idStr raw =
        (.okBook ub, (updateBook st now cy idStr raw).2) := Prod.ext_iff.mpr ⟨hok, rfl⟩
    obtain ⟨hv, i, old, hfi, hg, hconf, hub, hst2⟩ := updateBook_ok_inv _ _ _ _ _ _ _ hfull
    obtain ⟨hi, hold, hother⟩ :=
      update_success_facts st now idStr raw ub i old hids hfi hg hconf hub
    have holdmem : old ∈ st.books := hold ▸ List.getElem_mem hi
    rw [hst2]
    refine ⟨⟨?_, ?_, ?_⟩, ?_, ?_⟩
    · exact nodup_map_set Book.id st.books i ub hids
        (fun j hj hji => (hother j hj hji).1)
    · exact nodup_map_set keyOf st.books i ub hkeys
        (fun j hj hji => (hother j hj hji).2)
    · intro b hb
      rcases List.mem_or_eq_of_mem_set hb with hb' | rfl
      · exact htimes b hb'
      · have : old.createdAt ≤ now := (htle old holdmem).1
        simp [hub, this]
    · intro b hb
      rcases List.mem_or_eq_of_mem_set hb with hb' | rfl
      · exact hidb b hb'
      · simpa [hub] using hidb old holdmem
    · intro b hb
      rcases List.mem_or_eq_of_mem_set hb with hb' | rfl
      · exact htle b hb'
      · have : old.createdAt ≤ now := (htle old holdmem).1
        simp [hub, this]
  · rw [hst]
    exact ⟨⟨hids, hkeys, htimes⟩, hidb, htle⟩

theorem delete_good (st : Store) (now : Nat) (idStr : JStr)
    (h : GoodState st now) : GoodState (deleteBook st idStr).2 now := by
  obtain ⟨⟨hids, hkeys, htimes⟩, hidb, htle⟩ := h
  rcases deleteBook_cases st idStr with ⟨_, heq⟩ | ⟨i, old, hfi, hg, heq⟩
  · rw [heq]; exact ⟨⟨hids, hkeys, htimes⟩, hidb, htle⟩
  · rw [heq]
    have hsub := List.eraseIdx_sublist st.books i
    exact ⟨⟨(hsub.map Book.id).nodup hids, (hsub.map keyOf).nodup hkeys,
        fun b hb => htimes b (hsub.subset hb)⟩,
      fun b hb => hidb b (hsub.subset hb),
      fun b hb => htle b (hsub.subset hb)⟩

theorem applyOp_good (cy : Int) (now : Nat) (st : Store) (op : Op)
    (h : GoodState st now) : GoodState (applyOp cy now st op).2 now := by
  cases op with
  | list => exact h
  | get s => exact h
  | search q => exact h
  | create raw => exact create_good st now cy raw h
  | update s raw => exact update_good st now cy s raw h
  | delete s => exact delete_good st now s h

theorem seed_good (t0 : Nat) : GoodState (seedStore t0) t0 := by
  refine ⟨⟨?_, ?_, ?_⟩, ?_, ?_⟩
  · show ([1, 2, 3] : List Nat).Nodup
    decide
  · have h : List.map keyOf (seedStore t0).books = List.map keyOf (seedStore 0).books := rfl
    rw [h]
    decide
  · intro b hb
    simp only [seedStore, List.mem_cons, List.not_mem_nil, or_false] at hb
    rcases hb with rfl | rfl | rfl <;> simp
  · intro b hb
    simp only [seedStore, List.mem_cons, List.not_mem_nil, or_false] at hb
    rcases hb with rfl | rfl | rfl <;> simp [seedStore]
  · intro b hb
    simp only [seedStore, List.mem_cons, List.not_mem_nil, or_false] at hb
    rcases hb with rfl | rfl | rfl <;> simp

theorem assignedAlong_cons (cy : Int) (t : Nat) (op : Op) (st : Store)
    (rest : List (Nat × Op)) :
    assignedAlong cy st ((t, op) :: rest) =
      (match op, (applyOp cy t st op).1 with
       | .create _, .created b => [b.id]
       | _, _ => []) ++ assignedAlong cy (applyOp cy t st op).2 rest := rfl

/-- Along any trace, every id a create hands out is at least the current
counter, and the handed-out ids increase strictly. -/
theorem assignedAlong_spec (cy : Int) :
    ∀ (ops : List (Nat × Op)) (st : Store), IdBound st →
      (∀ a ∈ assignedAlong cy st ops, st.nextId ≤ a) ∧
      List.Pairwise (· < ·) (assignedAlong cy st ops) := by
  intro ops
  induction ops with
  | nil =>
    intro st _
    exact ⟨by simp [assignedAlong], by simp [assignedAlong]⟩
  | cons hd rest ih =>
    rintro st hidb
    obtain ⟨t, op⟩ := hd
    have hidb2 : IdBound (applyOp cy t st op).2 := applyOp_idBound cy t st op hidb
    obtain ⟨hlb, hpw⟩ := ih (applyOp cy t st op).2 hidb2
    have hmono := applyOp_nextId cy t st op
    cases op with
    | list => exact ⟨fun a ha => le_trans hmono (hlb a ha), hpw⟩
    | get s => exact ⟨fun a ha => le_trans hmono (hlb a ha), hpw⟩
    | search q => exact ⟨fun a ha => le_trans hmono (hlb a ha), hpw⟩
    | update s raw => exact ⟨fun a ha => le_trans hmono (hlb a ha), hpw⟩
    | delete s => exact ⟨fun a ha => le_trans hmono (hlb a ha), hpw⟩
    | create raw =>
      rcases createBook_cases st t cy raw with ⟨hne, heq⟩ | ⟨_, _, heq⟩ |
        ⟨_, _, nb, hnb, heq⟩
      · have hr : applyOp cy t st (Op.create raw) =
            (.badReq (validateBook cy (sanitize raw)), st) := heq
        rw [hr] at hlb hpw
        rw [assignedAlong_cons, hr]
        exact ⟨fun a ha => hlb a ha, hpw⟩
      · have hr : applyOp cy t st (Op.create raw) = (.conflict, st) := heq
        rw [hr] at hlb hpw
        rw [assignedAlong_cons, hr]
        exact ⟨fun a ha => hlb a ha, hpw⟩
      · have hr : applyOp cy t st (Op.create raw) =
            (.created nb, { books := st.books ++ [nb], nextId := st.nextId + 1 }) := heq
        rw [hr] at hlb hpw
        rw [assignedAlong_cons, hr]
        have hnbid : nb.id = st.nextId := by rw [hnb]
        constructor
        · intro a ha
          rcases List.mem_cons.mp (by simpa using ha) with rfl | ha'
          · rw [hnbid]
          · exact le_trans (Nat.le_succ _) (hlb a ha')
        · rw [List.singleton_append, List.pairwise_cons]
          refine ⟨?_, hpw⟩
          intro a ha
          have h2 : st.nextId + 1 ≤ a := hlb a ha
          omega

theorem execTrace_good (cy : Int) (ops : List (Nat × Op)) :
    ∀ (st : Store) (t0 : Nat), GoodState st t0 →
      List.Chain (· ≤ ·) t0 (ops.map Prod.fst) →
      ∃ t1, GoodState (execTrace cy st ops) t1 := by
  induction ops with
  | nil => exact fun st t0 h _ => ⟨t0, h⟩
  | cons hd rest ih =>
    rintro st t0 h hc
    obtain ⟨t, op⟩ := hd
    rw [List.map_cons, List.chain_cons] at hc
    obtain ⟨h01, hrest⟩ := hc
    have h1 : GoodState st t := goodState_mono h h01
    have h2 : GoodState (applyOp cy t st op).2 t := applyOp_good cy t st op h1
    exact ih (applyOp cy t st op).2 t h2 hrest

/-! ### Concrete data used by the witnesses -/

/-- A fresh, valid payload. -/
def payloadW : Payload :=
  { title := " Dune ".toList, author := "Frank Herbert".toList,
    genre := "Science Fiction".toList, publicationYear := 1965,
    description := "A desert planet saga.".toList }

/-- A payload colliding case-insensitively with seed record 1. -/
def payloadDupW : Payload :=
  { title := "the great gatsby".toList, author := "f. scott fitzgerald".toList,
    genre := "Fiction".toList, publicationYear := 1925,
    description := "Another copy.".toList }

/-- An invalid payload (empty title, year out of range). -/
def payloadBadW : Payload :=
  { title := "   ".toList, author := "Someone".toList,
    genre := "Poetry".toList, publicationYear := 999,
    description := "d".toList }

/-! ### The claims -/

/-- C1: after every operation (list, get, create, update, delete, search) of
any trace that starts from the seed state and whose request clock never goes
backwards, the store invariants hold: live ids are pairwise distinct, no two
live records share the case-insensitive `(title, author)` key, and
`createdAt ≤ updatedAt` on every record. -/
theorem c1_store_invariants (cy : Int) (t0 : Nat) (ops : List (Nat × Op))
    (hc : List.Chain (· ≤ ·) t0 (ops.map Prod.fst)) :
    Inv (execTrace cy (seedStore t0) ops) := by
  obtain ⟨t1, h⟩ := execTrace_good cy ops (seedStore t0) t0 (seed_good t0) hc
  exact h.1

/-- Witness for C1 on a concrete trace: delete record 2, create a fresh
record, update record 1, then search. -/
theorem c1_store_invariants_witness :
    Inv (execTrace 2026 (seedStore 0)
      [(1, Op.delete ['2']), (2, Op.create payloadW),
       (3, Op.update ['1'] payloadDupW), (4, Op.search ['z'])]) :=
  c1_store_invariants 2026 0 _ (by norm_num [List.chain_cons])

/-- C5: along any trace from the seed state (ids 1–3, counter at 4), the seed
ids followed by the ids handed out by successful creates form a strictly
increasing sequence — every new id exceeds every id ever assigned before,
deleted or not, so ids are never reused. -/
theorem c5_ids_monotonic (cy : Int) (t0 : Nat) (ops : List (Nat × Op)) :
    List.Pairwise (· < ·)
      ((seedStore t0).books.map Book.id ++ assignedAlong cy (seedStore t0) ops) := by
  obtain ⟨hlb, hpw⟩ := assignedAlong_spec cy ops (seedStore t0) (seed_good t0).2.1
  rw [List.pairwise_append]
  refine ⟨?_, hpw, ?_⟩
  · show ([1, 2, 3] : List Nat).Pairwise (· < ·)
    decide
  · intro a ha b hb
    have hb4 : (4 : Nat) ≤ b := hlb b hb
    have ha0 : a ∈ ([1, 2, 3] : List Nat) := ha
    have ha3 : a = 1 ∨ a = 2 ∨ a = 3 := by simpa using ha0
    rcases ha3 with rfl | rfl | rfl <;> omega

/-- C2: for every create request that passes validation, if some live record
matches the payload's title and author case-insensitively the response is
409 with the store unchanged; if every live record differs on at least one
of the two fields the create returns 201 and appends the new record. -/
theorem c2_create_duplicate_check (st : Store) (now : Nat) (cy : Int) (raw : Payload)
    (hv : validateBook cy (sanitize raw) = []) :
    ((∃ b ∈ st.books, toLowerJ b.title = toLowerJ (sanitize raw).title ∧
        toLowerJ b.author = toLowerJ (sanitize raw).author) →
      createBook st now cy raw = (.conflict, st) ∧
      Outcome.status (createBook st now cy raw).1 = 409) ∧
    ((∀ b ∈ st.books, toLowerJ b.title ≠ toLowerJ (sanitize raw).title ∨
        toLowerJ b.author ≠ toLowerJ (sanitize raw).author) →
      ∃ nb, createBook st now cy raw =
          (.created nb, { books := st.books ++ [nb], nextId := st.nextId + 1 }) ∧
        Outcome.status (createBook st now cy raw).1 = 201) := by
  rcases createBook_cases st now cy raw with ⟨hne, _⟩ | ⟨_, ⟨b, hb, hdup⟩, heq⟩ |
    ⟨_, hall, nb, hnb, heq⟩
  · exact absurd hv hne
  · constructor
    · intro _
      exact ⟨heq, by rw [heq]; rfl⟩
    · intro hnone
      obtain ⟨h1, h2⟩ := dupWith_true_iff (sanitize raw) b |>.mp hdup
      rcases hnone b hb with h | h
      · exact absurd h1 h
      · exact absurd h2 h
  · constructor
    · rintro ⟨b, hb, h1, h2⟩
      have hfalse := hall b hb
      have htrue := dupWith_true_iff (sanitize raw) b |>.mpr ⟨h1, h2⟩
      rw [htrue] at hfalse
      cases hfalse
    · intro _
      exact ⟨nb, heq, by rw [heq]; rfl⟩

/-- Witness for C2: creating a case-varied duplicate of seed record 1 gives
409 and leaves the seed store unchanged; creating a fresh record gives 201
and appends it. -/
theorem c2_create_duplicate_check_witness :
    (createBook (seedStore 0) 5 2026 payloadDupW = (.conflict, seedStore 0)) ∧
    (∃ nb, createBook (seedStore 0) 5 2026 payloadW =
        (.created nb, { books := (seedStore 0).books ++ [nb],
                        nextId := (seedStore 0).nextId + 1 }) ∧
      Outcome.status (createBook (seedStore 0) 5 2026 payloadW).1 = 201) := by
  constructor
  · exact ((c2_create_duplicate_check (seedStore 0) 5 2026 payloadDupW (by decide)).1
      (by decide)).1
  · exact (c2_create_duplicate_check (seedStore 0) 5 2026 payloadW (by decide)).2
      (by decide)

/-- C3: for a valid payload on an existing record, if a record with a
different id matches the payload's `(title, author)` case-insensitively the
update answers 409 leaving the store unchanged; if every case-insensitive
match carries the parsed id (in particular when the record keeps its own
pair) the update succeeds with 200. -/
theorem c3_update_conflict_rule (st : Store) (now : Nat) (cy : Int) (idStr : JStr)
    (raw : Payload) (i : Nat)
    (hv : validateBook cy (sanitize raw) = [])
    (hfound : findIndexJ (fun b => idEq b (jsParseInt idStr)) st.books = some i) :
    ((∃ b ∈ st.books, idEq b (jsParseInt idStr) = false ∧
        toLowerJ b.title = toLowerJ (sanitize raw).title ∧
        toLowerJ b.author = toLowerJ (sanitize raw).author) →
      updateBook st now cy idStr raw = (.conflict, st) ∧
      Outcome.status (updateBook st now cy idStr raw).1 = 409) ∧
    ((∀ b ∈ st.books, (toLowerJ b.title = toLowerJ (sanitize raw).title ∧
        toLowerJ b.author = toLowerJ (sanitize raw).author) →
        idEq b (jsParseInt idStr) = true) →
      ∃ ub st2, updateBook st now cy idStr raw = (.okBook ub, st2) ∧
        Outcome.status (updateBook st now cy idStr raw).1 = 200) := by
  rcases hc : st.books.find?
      (fun b => !idEq b (jsParseInt idStr) && dupWith (sanitize raw) b) with _ | b
  · constructor
    · rintro ⟨b, hb, hne, h1, h2⟩
      have hnone := List.find?_eq_none.mp hc b hb
      exfalso
      apply hnone
      rw [Bool.and_eq_true, Bool.not_eq_true', dupWith_true_iff]
      exact ⟨hne, h1, h2⟩
    · intro _
      obtain ⟨old, hg, _⟩ := findIndexJ_some _ _ _ hfound
      have heq : updateBook st now cy idStr raw =
          (.okBook { old with title := trimJ (sanitize raw).title,
                              author := trimJ (sanitize raw).author,
                              genre := trimJ (sanitize raw).genre,
                              publicationYear := (sanitize raw).publicationYear,
                              description := trimJ (sanitize raw).description,
                              updatedAt := now },
            { st with books := st.books.set i { old with
                title := trimJ (sanitize raw).title,
                author := trimJ (sanitize raw).author,
                genre := trimJ (sanitize raw).genre,
                publicationYear := (sanitize raw).publicationYear,
                description := trimJ (sanitize raw).description,
                updatedAt := now } }) := by
        simp [updateBook, hv, hfound, hc, hg]
      exact ⟨_, _, heq, by rw [heq]; rfl⟩
  · constructor
    · intro _
      have heq : updateBook st now cy idStr raw = (.conflict, st) := by
        simp [updateBook, hv, hfound, hc]
      exact ⟨heq, by rw [heq]; rfl⟩
    · intro hown
      exfalso
      have hpb := List.find?_some hc
      have hmem := List.mem_of_find?_eq_some hc
      rw [Bool.and_eq_true, Bool.not_eq_true', dupWith_true_iff] at hpb
      obtain ⟨hne, h1, h2⟩ := hpb
      have := hown b hmem ⟨h1, h2⟩
      rw [this] at hne
      cases hne

/-- Witness for C3 on the seed store: updating record 1 onto record 2's
pair conflicts; updating record 1 onto its own (case-varied) pair succeeds. -/
theorem c3_update_conflict_rule_witness :
    (updateBook (seedStore 0) 6 2026 ['1']
        { payloadDupW with title := "To Kill a Mockingbird".toList,
                           author := "harper lee".toList } = (.conflict, seedStore 0)) ∧
    (∃ ub st2, updateBook (seedStore 0) 6 2026 ['1'] payloadDupW = (.okBook ub, st2)) := by
  constructor
  · exact ((c3_update_conflict_rule (seedStore 0) 6 2026 ['1']
      { payloadDupW with title := "To Kill a Mockingbird".toList,
                         author := "harper lee".toList } 0 (by decide) (by decide)).1
      (by decide)).1
  · obtain ⟨ub, st2, heq, _⟩ := (c3_update_conflict_rule (seedStore 0) 6 2026 ['1']
      payloadDupW 0 (by decide) (by decide)).2 (by decide)
    exact ⟨ub, st2, heq⟩

/-- C4: every successful update replaces title, author, genre,
publicationYear and description by the trimmed payload values, refreshes
`updatedAt`, preserves `id` and `createdAt`, keeps the record at its index,
and leaves every other record and the counter unchanged. -/
theorem c4_update_frame (st : Store) (now : Nat) (cy : Int) (idStr : JStr)
    (raw : Payload) (ub : Book) (st2 : Store)
    (h : updateBook st now cy idStr raw = (.okBook ub, st2)) :
    ∃ i old, findIndexJ (fun b => idEq b (jsParseInt idStr)) st.books = some i ∧
      st.books[i]? = some old ∧
      ub.title = trimJ raw.title ∧ ub.author = trimJ raw.author ∧
      ub.genre = trimJ raw.genre ∧ ub.publicationYear = raw.publicationYear ∧
      ub.description = trimJ raw.description ∧ ub.updatedAt = now ∧
      ub.id = old.id ∧ ub.createdAt = old.createdAt ∧
      st2.books = st.books.set i ub ∧ st2.nextId = st.nextId ∧
      st2.books[i]? = some ub ∧ st2.books.length = st.books.length ∧
      (∀ j, j ≠ i → st2.books[j]? = st.books[j]?) := by
  obtain ⟨hv, i, old, hfi, hg, hconf, hub, hst2⟩ := updateBook_ok_inv _ _ _ _ _ _ _ h
  obtain ⟨hi, hold⟩ := List.getElem?_eq_some.mp hg
  subst hub
  subst hst2
  refine ⟨i, old, hfi, hg, rfl, rfl, rfl, rfl, rfl, rfl, rfl, rfl, rfl, rfl, ?_, ?_, ?_⟩
  · rw [List.getElem?_set]
    simp [hi]
  · exact List.length_set st.books i _
  · intro j hj
    exact List.getElem?_set_ne (fun he => hj he.symm)

/-- The record and store produced by the witness update of C4. -/
def ubW : Book :=
  { id := 2, title := "Dune".toList, author := "Frank Herbert".toList,
    genre := "Science Fiction".toList, publicationYear := 1965,
    description := "A desert planet saga.".toList, createdAt := 0, updatedAt := 9 }

/-- The store after the witness update of C4. -/
def st2W : Store := { books := (seedStore 0).books.set 1 ubW, nextId := 4 }

/-- Witness for C4: updating seed record 2 with a concrete payload. -/
theorem c4_update_frame_witness :
    ∃ i old, findIndexJ (fun b => idEq b (jsParseInt ['2'])) (seedStore 0).books = some i ∧
      (seedStore 0).books[i]? = some old ∧ ubW.title = trimJ payloadW.title ∧
      ubW.id = old.id ∧ ubW.createdAt = old.createdAt ∧
      st2W.books = (seedStore 0).books.set i ubW := by
  obtain ⟨i, old, h1, h2, h3, h4, h5, h6, h7, h8, h9, h10, h11, h12, h13, h14, h15⟩ :=
    c4_update_frame (seedStore 0) 9 2026 ['2'] payloadW ubW st2W (by decide)
  exact ⟨i, old, h1, h2, h3, h9, h10, h11⟩

/-- C8: deleting an absent id answers 404 and leaves the store unchanged;
deleting an existing id removes exactly the record at the found index
(`eraseIdx`, i.e. the other records keep their relative order) and returns
it with 200, and — when live ids are distinct — a subsequent get by the same
id string answers 404 and the record is absent from the remaining list and
from every subsequent search result. -/
theorem c8_delete (st : Store) (idStr : JStr) :
    ((∀ b ∈ st.books, idEq b (jsParseInt idStr) = false) →
      deleteBook st idStr = (.notFound, st) ∧
      Outcome.status (deleteBook st idStr).1 = 404) ∧
    (∀ i old, findIndexJ (fun b => idEq b (jsParseInt idStr)) st.books = some i →
      st.books[i]? = some old →
      deleteBook st idStr = (.okBook old, { st with books := st.books.eraseIdx i }) ∧
      st.books.eraseIdx i = st.books.take i ++ st.books.drop (i + 1) ∧
      ((st.books.map Book.id).Nodup →
        getBookR { st with books := st.books.eraseIdx i } idStr = .notFound ∧
        old ∉ st.books.eraseIdx i ∧
        listBooksR { st with books := st.books.eraseIdx i } =
          .okList (st.books.eraseIdx i) (st.books.eraseIdx i).length ∧
        (∀ rawQ rs c, searchBooks { st with books := st.books.eraseIdx i } rawQ =
            .okList rs c → old ∉ rs))) := by
  constructor
  · intro hall
    have hnone : findIndexJ (fun b => idEq b (jsParseInt idStr)) st.books = none :=
      (findIndexJ_eq_none _ _).mpr hall
    have heq : deleteBook st idStr = (.notFound, st) := by simp [deleteBook, hnone]
    exact ⟨heq, by rw [heq]; rfl⟩
  · intro i old hfi hg
    obtain ⟨hi, hold⟩ := List.getElem?_eq_some.mp hg
    refine ⟨by simp [deleteBook, hfi, hg], List.eraseIdx_eq_take_drop_succ st.books i, ?_⟩
    intro hids
    have hdrop : st.books.drop i = old :: st.books.drop (i + 1) := by
      rw [← hold]
      exact (List.getElem_cons_drop st.books i hi).symm
    have hL : st.books = st.books.take i ++ old :: st.books.drop (i + 1) := by
      conv_lhs => rw [← List.take_append_drop i st.books]
      rw [hdrop]
    have hmape : (st.books.eraseIdx i).map Book.id =
        (st.books.take i).map Book.id ++ (st.books.drop (i + 1)).map Book.id := by
      rw [List.eraseIdx_eq_take_drop_succ, List.map_append]
    have hids2 : ((st.books.take i).map Book.id ++
        old.id :: (st.books.drop (i + 1)).map Book.id).Nodup := by
      rw [← List.map_cons, ← List.map_append, ← hL]
      exact hids
    have hnotmem : old.id ∉ (st.books.take i).map Book.id ++
        (st.books.drop (i + 1)).map Book.id :=
      (List.nodup_cons.mp (List.nodup_middle.mp hids2)).1
    have hidne : ∀ b ∈ st.books.eraseIdx i, b.id ≠ old.id := by
      intro b hb heqid
      apply hnotmem
      rw [← hmape, ← heqid]
      exact List.mem_map_of_mem Book.id hb
    have hnotin : old ∉ st.books.eraseIdx i := by
      intro hmem
      exact hidne old hmem rfl
    obtain ⟨old2, hg2, hp2⟩ := findIndexJ_some _ _ _ hfi
    rw [hg] at hg2
    injection hg2 with hg2
    subst hg2
    rcases hpid : jsParseInt idStr with _ | k
    · rw [hpid] at hp2
      simp [idEq] at hp2
    · rw [hpid] at hp2
      have hk : (old.id : Int) = k := by simpa [idEq] using hp2
      have hfindnone : (st.books.eraseIdx i).find?
          (fun b => idEq b (jsParseInt idStr)) = none := by
        rw [hpid]
        apply List.find?_eq_none.mpr
        intro b hb hbtrue
        have hbk : (b.id : Int) = k := by simpa [idEq] using hbtrue
        apply hidne b hb
        have : (b.id : Int) = (old.id : Int) := by rw [hbk, hk]
        exact_mod_cast this
      refine ⟨?_, hnotin, rfl, ?_⟩
      · simp [getBookR, hfindnone]
      · intro rawQ rs c hs
        by_cases hq : trimJ (toLowerJ rawQ) = []
        · simp [searchBooks, hq] at hs
        · simp only [searchBooks, hq, if_neg] at hs
          have hrs : rs = (st.books.eraseIdx i).filter
              (searchHit (trimJ (toLowerJ rawQ))) := by
            injection hs with h1 h2
            exact h1.symm
          rw [hrs]
          intro hmem
          exact hnotin (List.mem_filter.mp hmem).1

/-- Seed record 2, spelled out for the delete witness. -/
def seedBook2 : Book :=
  { id := 2, title := "To Kill a Mockingbird".toList, author := "Harper Lee".toList,
    genre := "Fiction".toList, publicationYear := 1960,
    description := "A gripping tale of racial injustice and childhood innocence.".toList,
    createdAt := 0, updatedAt := 0 }

/-- Witness for C8: deleting seed record 2, then getting it back by id. -/
theorem c8_delete_witness :
    deleteBook (seedStore 0) ['2'] =
      (.okBook seedBook2, { seedStore 0 with books := (seedStore 0).books.eraseIdx 1 }) ∧
    getBookR { seedStore 0 with books := (seedStore 0).books.eraseIdx 1 } ['2'] = .notFound ∧
    seedBook2 ∉ (seedStore 0).books.eraseIdx 1 := by
  obtain ⟨h1, h2, h3⟩ := (c8_delete (seedStore 0) ['2']).2 1 seedBook2 (by decide) (by decide)
  obtain ⟨h4, h5, h6, h7⟩ := h3 (by decide)
  exact ⟨h1, h4, h5⟩

/-- C9: a valid, non-colliding create appends a record carrying the trimmed
payload fields with `createdAt = updatedAt`; fetching the returned id then
yields exactly that record, and after one successful update of it (at clock
`now2`) the record keeps its `createdAt`, gets `updatedAt = now2`, so
`updatedAt ≥ createdAt` when the clock does not go back and `updatedAt`
strictly exceeds its prior value when the clock advanced. -/
theorem c9_roundtrip (st : Store) (now : Nat) (cy : Int) (raw : Payload)
    (hv : validateBook cy (sanitize raw) = [])
    (hfresh : ∀ b ∈ st.books, dupWith (sanitize raw) b = false)
    (hidb : IdBound st) :
    ∃ nb st1, createBook st now cy raw = (.created nb, st1) ∧
      nb.title = trimJ raw.title ∧ nb.author = trimJ raw.author ∧
      nb.genre = trimJ raw.genre ∧ nb.publicationYear = raw.publicationYear ∧
      nb.description = trimJ raw.description ∧
      nb.createdAt = nb.updatedAt ∧ nb.createdAt = now ∧
      (∀ idStr, jsParseInt idStr = some (nb.id : Int) →
        getBookR st1 idStr = .okBook nb) ∧
      (∀ idStr now2 raw2 ub st2,
        jsParseInt idStr = some (nb.id : Int) →
        updateBook st1 now2 cy idStr raw2 = (.okBook ub, st2) →
        ub.createdAt = nb.createdAt ∧ ub.updatedAt = now2 ∧
        (now ≤ now2 → ub.createdAt ≤ ub.updatedAt) ∧
        (now < now2 → nb.updatedAt < ub.updatedAt)) := by
  rcases createBook_cases st now cy raw with ⟨hne, _⟩ | ⟨_, ⟨b, hb, hdup⟩, _⟩ |
    ⟨_, _, nb, hnb, heq⟩
  · exact absurd hv hne
  · rw [hfresh b hb] at hdup
    cases hdup
  · have hnbid : nb.id = st.nextId := by rw [hnb]
    have hearly : ∀ b ∈ st.books, idEq b (some (nb.id : Int)) = false := by
      intro b hb
      simp only [idEq, decide_eq_false_iff_not]
      intro hcast
      have hlt := hidb b hb
      have : b.id = nb.id := by exact_mod_cast hcast
      omega
    have hself : idEq nb (some (nb.id : Int)) = true := by simp [idEq]
    refine ⟨nb, _, heq, by simp [hnb, sanitize], by simp [hnb, sanitize],
      by simp [hnb, sanitize], by simp [hnb, sanitize], by simp [hnb, sanitize],
      by simp [hnb, sanitize], by simp [hnb, sanitize], ?_, ?_⟩
    · intro idStr hp
      have hfind : ({ books := st.books ++ [nb], nextId := st.nextId + 1 } :
          Store).books.find? (fun b => idEq b (jsParseInt idStr)) = some nb := by
        show (st.books ++ [nb]).find? (fun b => idEq b (jsParseInt idStr)) = some nb
        rw [hp, List.find?_append]
        have h1 : st.books.find? (fun b => idEq b (some (nb.id : Int))) = none :=
          List.find?_eq_none.mpr fun b hb => by rw [hearly b hb]; exact Bool.false_ne_true
        rw [h1, Option.none_or]
        simp [List.find?, hself]
      simp [getBookR, hfind]
    · intro idStr now2 raw2 ub st2 hp hupd
      obtain ⟨hv2, i, old, hfi, hg, hconf, hub, hst2⟩ :=
        updateBook_ok_inv _ _ _ _ _ _ _ hupd
      have hfi2 : findIndexJ (fun b => idEq b (jsParseInt idStr))
          ({ books := st.books ++ [nb], nextId := st.nextId + 1 } : Store).books =
            some st.books.length := by
        show findIndexJ (fun b => idEq b (jsParseInt idStr)) (st.books ++ [nb]) =
          some st.books.length
        rw [hp]
        exact findIndexJ_append_sentinel _ _ _ hearly hself
      rw [hfi2] at hfi
      injection hfi with hfi
      subst hfi
      have hgnb : ({ books := st.books ++ [nb], nextId := st.nextId + 1 } :
          Store).books[st.books.length]? = some nb := by
        show (st.books ++ [nb])[st.books.length]? = some nb
        rw [List.getElem?_append_right (le_refl _)]
        simp
      rw [hgnb] at hg
      injection hg with hg
      subst hg
      refine ⟨by rw [hub], by rw [hub], ?_, ?_⟩
      · intro h2
        rw [hub, hnb]
        simpa using le_trans (le_of_eq rfl) h2
      · intro h2
        rw [hub, hnb]
        simpa using h2

/-- Witness for C9: creating a fresh record on the seed store at clock 5. -/
theorem c9_roundtrip_witness :
    ∃ nb st1, createBook (seedStore 0) 5 2026 payloadW = (.created nb, st1) ∧
      nb.title = trimJ payloadW.title ∧ nb.createdAt = nb.updatedAt ∧ nb.createdAt = 5 := by
  obtain ⟨nb, st1, h1, h2, h3, h4, h5, h6, h7, h8, h9, h10⟩ :=
    c9_roundtrip (seedStore 0) 5 2026 payloadW (by decide) (by decide)
      (by unfold IdBound; decide)
  exact ⟨nb, st1, h1, h2, h7, h8⟩

/-- C6: a query that is empty after trimming answers 400; otherwise the
result is exactly the sublist of live records, in insertion order, whose
title, author, genre or description contains the lowercased trimmed query
as a case-insensitive substring, with `count` the result length; when no
record matches the result is a success with the empty array and count 0. -/
theorem c6_search (st : Store) (rawQ : JStr) :
    (trimJ (toLowerJ rawQ) = [] →
      searchBooks st rawQ = .emptyQuery ∧
      Outcome.status (searchBooks st rawQ) = 400) ∧
    (trimJ (toLowerJ rawQ) ≠ [] →
      ∃ rs, searchBooks st rawQ = .okList rs rs.length ∧
        Outcome.status (searchBooks st rawQ) = 200 ∧
        rs.Sublist st.books ∧
        (∀ b, b ∈ rs ↔ b ∈ st.books ∧ SearchMatch (trimJ (toLowerJ rawQ)) b) ∧
        ((∀ b ∈ st.books, ¬ SearchMatch (trimJ (toLowerJ rawQ)) b) →
          searchBooks st rawQ = .okList [] 0)) := by
  constructor
  · intro hq
    have heq : searchBooks st rawQ = .emptyQuery := by simp [searchBooks, hq]
    exact ⟨heq, by rw [heq]; rfl⟩
  · intro hq
    have hhit : ∀ b, searchHit (trimJ (toLowerJ rawQ)) b = true ↔
        SearchMatch (trimJ (toLowerJ rawQ)) b := by
      intro b
      simp only [searchHit, Bool.or_eq_true, includesJ_iff, SearchMatch]
      tauto
    have heq : searchBooks st rawQ =
        .okList (st.books.filter (searchHit (trimJ (toLowerJ rawQ))))
          (st.books.filter (searchHit (trimJ (toLowerJ rawQ)))).length := by
      simp [searchBooks, hq]
    refine ⟨_, heq, by rw [heq]; rfl, List.filter_sublist st.books, ?_, ?_⟩
    · intro b
      rw [List.mem_filter, hhit]
    · intro hnone
      have hnil : st.books.filter (searchHit (trimJ (toLowerJ rawQ))) = [] := by
        rw [List.filter_eq_nil_iff]
        intro b hb htrue
        exact hnone b hb ((hhit b).mp htrue)
      rw [heq, hnil]
      rfl

/-- Witness for C6: on the seed store, the query `" JAZZ "` (matching only
the description of record 1) and a query matching nothing. -/
theorem c6_search_witness :
    (∃ rs, searchBooks (seedStore 0) " JAZZ ".toList = .okList rs rs.length ∧
      rs.Sublist (seedStore 0).books) ∧
    searchBooks (seedStore 0) "zzq".toList = .okList [] 0 ∧
    searchBooks (seedStore 0) "  ".toList = .emptyQuery := by
  refine ⟨?_, ?_, ?_⟩
  · obtain ⟨rs, h1, h2, h3, h4, h5⟩ :=
      (c6_search (seedStore 0) " JAZZ ".toList).2 (by decide)
    exact ⟨rs, h1, h3⟩
  · decide
  · exact ((c6_search (seedStore 0) "  ".toList).1 (by decide)).1

theorem mem_if_singleton {c : Prop} [Decidable c] {a x : FieldError} :
    (a ∈ if c then [x] else []) ↔ c ∧ a = x := by
  split <;> simp_all

theorem if_singleton_eq_nil {c : Prop} [Decidable c] {x : FieldError} :
    ((if c then [x] else []) = []) ↔ ¬c := by
  split <;> simp_all

theorem if_nil_singleton_eq_nil {c : Prop} [Decidable c] {x : FieldError} :
    ((if c then [] else [x]) = []) ↔ c := by
  split <;> simp_all

theorem genres_ne_nil : ∀ g ∈ genresJ, g ≠ [] := by decide

theorem one_le_length_iff (l : JStr) : 1 ≤ l.length ↔ l ≠ [] := by
  rw [Nat.one_le_iff_ne_zero, Ne, Ne, List.length_eq_zero]

/-- C7: the validation chain evaluates every field rule independently and
collects one `{field, message}` entry per violated rule (each entry is
present exactly when its rule fails, whatever the other fields are); it is
empty exactly when the payload is valid, and on any violation both create
and update answer 400 carrying the collected list and leave the store
untouched. -/
theorem c7_validation (st : Store) (now : Nat) (cy : Int) (raw : Payload) :
    (validateBook cy (sanitize raw) = [] ↔ ValidPayload cy (sanitize raw)) ∧
    ((⟨"title", "Title is required"⟩ : FieldError) ∈ validateBook cy (sanitize raw) ↔
      (sanitize raw).title = []) ∧
    ((⟨"title", "Title must be between 1 and 200 characters"⟩ : FieldError) ∈
        validateBook cy (sanitize raw) ↔
      ¬(1 ≤ (sanitize raw).title.length ∧ (sanitize raw).title.length ≤ 200)) ∧
    ((⟨"author", "Author is required"⟩ : FieldError) ∈ validateBook cy (sanitize raw) ↔
      (sanitize raw).author = []) ∧
    ((⟨"author", "Author must be between 1 and 100 characters"⟩ : FieldError) ∈
        validateBook cy (sanitize raw) ↔
      ¬(1 ≤ (sanitize raw).author.length ∧ (sanitize raw).author.length ≤ 100)) ∧
    ((⟨"genre", "Genre is required"⟩ : FieldError) ∈ validateBook cy (sanitize raw) ↔
      (sanitize raw).genre = []) ∧
    ((⟨"genre", "Invalid genre"⟩ : FieldError) ∈ validateBook cy (sanitize raw) ↔
      (sanitize raw).genre ∉ genresJ) ∧
    ((⟨"publicationYear", "Publication year must be between 1000 and " ++ toString cy⟩ :
        FieldError) ∈ validateBook cy (sanitize raw) ↔
      ¬(1000 ≤ (sanitize raw).publicationYear ∧ (sanitize raw).publicationYear ≤ cy)) ∧
    ((⟨"description", "Description is required"⟩ : FieldError) ∈
        validateBook cy (sanitize raw) ↔ (sanitize raw).description = []) ∧
    ((⟨"description", "Description must be between 1 and 1000 characters"⟩ : FieldError) ∈
        validateBook cy (sanitize raw) ↔
      ¬(1 ≤ (sanitize raw).description.length ∧ (sanitize raw).description.length ≤ 1000)) ∧
    (validateBook cy (sanitize raw) ≠ [] →
      createBook st now cy raw = (.badReq (validateBook cy (sanitize raw)), st) ∧
      Outcome.status (createBook st now cy raw).1 = 400 ∧
      ∀ idStr, updateBook st now cy idStr raw = (.badReq (validateBook cy (sanitize raw)), st) ∧
        Outcome.status (updateBook st now cy idStr raw).1 = 400) := by
  refine ⟨?_, ?_, ?_, ?_, ?_, ?_, ?_, ?_, ?_, ?_, ?_⟩
  · have hgi : (sanitize raw).genre ∈ genresJ → (sanitize raw).genre ≠ [] :=
      fun h => genres_ne_nil _ h
    simp only [validateBook, List.append_eq_nil, if_singleton_eq_nil,
      if_nil_singleton_eq_nil, ValidPayload, one_le_length_iff]
    tauto
  · simp only [validateBook, List.mem_append, mem_if_singleton, FieldError.mk.injEq]
    simp
  · simp only [validateBook, List.mem_append, mem_if_singleton, FieldError.mk.injEq]
    simp
  · simp only [validateBook, List.mem_append, mem_if_singleton, FieldError.mk.injEq]
    simp
  · simp only [validateBook, List.mem_append, mem_if_singleton, FieldError.mk.injEq]
    simp
  · simp only [validateBook, List.mem_append, mem_if_singleton, FieldError.mk.injEq]
    simp
  · simp only [validateBook, List.mem_append, mem_if_singleton, FieldError.mk.injEq]
    simp
  · simp only [validateBook, List.mem_append, mem_if_singleton, FieldError.mk.injEq]
    simp
  · simp only [validateBook, List.mem_append, mem_if_singleton, FieldError.mk.injEq]
    simp
  · simp only [validateBook, List.mem_append, mem_if_singleton, FieldError.mk.injEq]
    simp
  · intro hne
    have hc : createBook st now cy raw = (.badReq (validateBook cy (sanitize raw)), st) := by
      simp [createBook, hne]
    have hu : ∀ idStr, updateBook st now cy idStr raw =
        (.badReq (validateBook cy (sanitize raw)), st) := by
      intro idStr
      simp [updateBook, hne]
    exact ⟨hc, by rw [hc]; rfl, fun idStr => ⟨hu idStr, by rw [hu idStr]; rfl⟩⟩

/-- Witness for C7 on a concrete invalid payload (blank title, genre outside
the enum, year below 1000): the collected errors and the 400 on create. -/
theorem c7_validation_witness :
    ((⟨"title", "Title is required"⟩ : FieldError) ∈
      validateBook 2026 (sanitize payloadBadW)) ∧
    ((⟨"genre", "Invalid genre"⟩ : FieldError) ∈
      validateBook 2026 (sanitize payloadBadW)) ∧
    ((⟨"publicationYear", "Publication year must be between 1000 and " ++ toString (2026 : Int)⟩ :
      FieldError) ∈ validateBook 2026 (sanitize payloadBadW)) ∧
    createBook (seedStore 0) 5 2026 payloadBadW =
      (.badReq (validateBook 2026 (sanitize payloadBadW)), seedStore 0) := by
  obtain ⟨hv, h1, h2, h3, h4, h5, h6, h7, h8, h9, h10⟩ :=
    c7_validation (seedStore 0) 5 2026 payloadBadW
  refine ⟨h1.mpr (by decide), h6.mpr (by decide), h7.mpr (by decide), ?_⟩
  exact (h10 (by decide)).1

/-- C10 counterexample: the id string `"+1"` does not start with a digit,
yet `parseInt` reads it as `1`, so the get route answers 200 (the seed
record 1), not the 404 the claim asserts for every such string. -/
theorem c10_counterexample :
    (['+', '1'] : JStr).head? = some '+' ∧ '+'.isDigit = false ∧
    Outcome.status (getBookR (seedStore 0) ['+', '1']) = 200 ∧
    getBookR (seedStore 0) ['+', '1'] ≠ .notFound := by decide

/-- C10 (amended): get, update, and delete interpret the `:id` segment via
`parseInt`; whenever `parseInt` yields NaN, get and delete answer 404 (and
update with a payload passing validation answers 404, never 400); whenever
`parseInt` yields a number `n` — e.g. `2` for `"2abc"` — the operation is
applied to the record whose id equals `n`: a returned or removed record has
id `n`, and the answer is 404 exactly when no live record has id `n`. -/
theorem c10_parseint_id_amended (st : Store) (idStr : JStr) :
    (jsParseInt idStr = none →
      getBookR st idStr = .notFound ∧
      deleteBook st idStr = (.notFound, st) ∧
      (∀ now cy raw, validateBook cy (sanitize raw) = [] →
        updateBook st now cy idStr raw = (.notFound, st))) ∧
    (∀ n : Int, jsParseInt idStr = some n →
      (∀ b, getBookR st idStr = .okBook b → b ∈ st.books ∧ (b.id : Int) = n) ∧
      (getBookR st idStr = .notFound ↔ ∀ b ∈ st.books, (b.id : Int) ≠ n) ∧
      (∀ d st2, deleteBook st idStr = (.okBook d, st2) →
        d ∈ st.books ∧ (d.id : Int) = n) ∧
      ((deleteBook st idStr).1 = .notFound ↔ ∀ b ∈ st.books, (b.id : Int) ≠ n) ∧
      (∀ now cy raw, validateBook cy (sanitize raw) = [] →
        ((updateBook st now cy idStr raw).1 = .notFound ↔
          ∀ b ∈ st.books, (b.id : Int) ≠ n))) := by
  constructor
  · intro hp
    have hall : ∀ b ∈ st.books, idEq b (jsParseInt idStr) = false := by
      intro b _
      rw [hp]
      rfl
    have hfind : st.books.find? (fun b => idEq b (jsParseInt idStr)) = none :=
      List.find?_eq_none.mpr fun b hb => by rw [hall b hb]; exact Bool.false_ne_true
    have hfidx : findIndexJ (fun b => idEq b (jsParseInt idStr)) st.books = none :=
      (findIndexJ_eq_none _ _).mpr hall
    refine ⟨by simp [getBookR, hfind], by simp [deleteBook, hfidx], ?_⟩
    intro now cy raw hv
    simp [updateBook, hv, hfidx]
  · intro n hp
    have hpred : ∀ b, idEq b (jsParseInt idStr) = true ↔ (b.id : Int) = n := by
      intro b
      rw [hp]
      simp [idEq]
    have hnone_iff : findIndexJ (fun b => idEq b (jsParseInt idStr)) st.books = none ↔
        ∀ b ∈ st.books, (b.id : Int) ≠ n := by
      rw [findIndexJ_eq_none]
      constructor
      · intro h b hb hbn
        have := h b hb
        rw [Bool.eq_false_iff, Ne, hpred] at this
        exact this hbn
      · intro h b hb
        rw [Bool.eq_false_iff, Ne, hpred]
        exact h b hb
    refine ⟨?_, ?_, ?_, ?_, ?_⟩
    · intro b hb
      rcases hf : st.books.find? (fun x => idEq x (jsParseInt idStr)) with _ | b0
      · simp [getBookR, hf] at hb
      · have hbb : b0 = b := by
          have := hb
          simp only [getBookR, hf] at this
          injection this
        subst hbb
        have hpb0 := List.find?_some hf
        exact ⟨List.mem_of_find?_eq_some hf, (hpred b0).mp hpb0⟩
    · rcases hf : st.books.find? (fun x => idEq x (jsParseInt idStr)) with _ | b0
      · have hgr : getBookR st idStr = .notFound := by simp [getBookR, hf]
        rw [hgr]
        simp only [true_iff]
        intro b hb hbn
        have hfalse : ¬ idEq b (jsParseInt idStr) = true := List.find?_eq_none.mp hf b hb
        rw [hpred] at hfalse
        exact hfalse hbn
      · have hgr : getBookR st idStr = .okBook b0 := by simp [getBookR, hf]
        rw [hgr]
        constructor
        · intro h
          cases h
        · intro h
          exfalso
          have hpb0 := List.find?_some hf
          exact h b0 (List.mem_of_find?_eq_some hf) ((hpred b0).mp hpb0)
    · intro d st2 hd
      rcases deleteBook_cases st idStr with ⟨_, heq⟩ | ⟨i, old, hfi, hg, heq⟩
      · rw [heq] at hd
        cases hd
      · rw [heq] at hd
        have hdo : old = d := by
          have := congrArg Prod.fst hd
          simpa using this
        subst hdo
        obtain ⟨b0, hb0, hp0⟩ := findIndexJ_some _ _ _ hfi
        rw [hg] at hb0
        injection hb0 with hb0
        subst hb0
        obtain ⟨hi, hold⟩ := List.getElem?_eq_some.mp hg
        exact ⟨hold ▸ List.getElem_mem hi, (hpred old).mp hp0⟩
    · rcases deleteBook_cases st idStr with ⟨hcase, heq⟩ | ⟨i, old, hfi, hg, heq⟩
      · rw [heq]
        simp only [true_iff]
        rcases hcase with hfn | ⟨i, hfi, hgn⟩
        · exact hnone_iff.mp hfn
        · obtain ⟨b0, hb0, _⟩ := findIndexJ_some _ _ _ hfi
          rw [hgn] at hb0
          cases hb0
      · rw [heq]
        constructor
        · intro h
          cases h
        · intro h
          exfalso
          obtain ⟨b0, hb0, hp0⟩ := findIndexJ_some _ _ _ hfi
          rw [hg] at hb0
          injection hb0 with hb0
          subst hb0
          obtain ⟨hi, hold⟩ := List.getElem?_eq_some.mp hg
          exact h old (hold ▸ List.getElem_mem hi) ((hpred old).mp hp0)
    · intro now cy raw hv
      rcases hfi : findIndexJ (fun b => idEq b (jsParseInt idStr)) st.books with _ | i
      · have heq : updateBook st now cy idStr raw = (.notFound, st) := by
          simp [updateBook, hv, hfi]
        rw [heq]
        simp only [true_iff]
        exact hnone_iff.mp hfi
      · obtain ⟨b0, hb0, hp0⟩ := findIndexJ_some _ _ _ hfi
        have hnot : ¬ ∀ b ∈ st.books, (b.id : Int) ≠ n := by
          intro h
          obtain ⟨hi, hold⟩ := List.getElem?_eq_some.mp hb0
          exact h b0 (hold ▸ List.getElem_mem hi) ((hpred b0).mp hp0)
        rcases hc : st.books.find?
            (fun b => !idEq b (jsParseInt idStr) && dupWith (sanitize raw) b) with _ | bx
        · have heq : (updateBook st now cy idStr raw).1 = .okBook
              { b0 with title := trimJ (sanitize raw).title,
                        author := trimJ (sanitize raw).author,
                        genre := trimJ (sanitize raw).genre,
                        publicationYear := (sanitize raw).publicationYear,
                        description := trimJ (sanitize raw).description,
                        updatedAt := now } := by
            simp [updateBook, hv, hfi, hc, hb0]
          rw [heq]
          constructor
          · intro h
            cases h
          · intro h
            exact absurd h hnot
        · have heq : (updateBook st now cy idStr raw).1 = .conflict := by
            simp [updateBook, hv, hfi, hc]
          rw [heq]
          constructor
          · intro h
            cases h
          · intro h
            exact absurd h hnot

/-- Witness for C10 (amended): `"abc"` parses to NaN and yields 404 on the
seed store; `"2abc"` parses to `2` and get returns the record with id 2. -/
theorem c10_parseint_id_amended_witness :
    jsParseInt ['a', 'b', 'c'] = none ∧
    jsParseInt ['2', 'a', 'b', 'c'] = some 2 ∧
    getBookR (seedStore 0) ['a', 'b', 'c'] = .notFound ∧
    deleteBook (seedStore 0) ['a', 'b', 'c'] = (.notFound, seedStore 0) ∧
    (∀ b, getBookR (seedStore 0) ['2', 'a', 'b', 'c'] = .okBook b →
      b ∈ (seedStore 0).books ∧ (b.id : Int) = 2) := by
  refine ⟨by decide, by decide, ?_, ?_, ?_⟩
  · exact ((c10_parseint_id_amended (seedStore 0) ['a', 'b', 'c']).1 (by decide)).1
  · exact ((c10_parseint_id_amended (seedStore 0) ['a', 'b', 'c']).1 (by decide)).2.1
  · exact ((c10_parseint_id_amended (seedStore 0) ['2', 'a', 'b', 'c']).2 2 (by decide)).1

end BookApi
